import Mathlib

/-!
Verification of the EventsGovega outreach-message pipeline (src/app.py).

The pipeline is embedded shallowly: Python strings become `List Char`
(wrapped in `String` at the interface), the Groq completion client becomes
an explicit call outcome `Except Unit String` (or a function from the
prompt for the summarizer, whose prompt content matters), and Python
exceptions become `Except`.  All definitions are translated directly from
the source file; each is annotated with the source lines it embeds.
-/

namespace EventsGovega

/-! ### Python string primitives -/

/-- The ASCII apostrophe character (U+0027), as it occurs in the
source literals such as the connection note. -/
def apoChar : Char := Char.ofNat 39

/-- The right single quotation mark (U+2019) used by the source in the
preamble phrase list literal. -/
def rsqChar : Char := Char.ofNat 8217

/-- Whitespace recognised by Python `str.strip()` (`str.isspace`),
covering the ASCII and common Unicode whitespace code points. -/
def isPySpace (c : Char) : Bool :=
  (c == ' ') || (c == '\t') || (c == '\n') || (c == '\r') ||
  (c == Char.ofNat 11) || (c == Char.ofNat 12) ||
  (c == Char.ofNat 28) || (c == Char.ofNat 29) ||
  (c == Char.ofNat 30) || (c == Char.ofNat 31) ||
  (c == Char.ofNat 133) || (c == Char.ofNat 160) ||
  (c == Char.ofNat 8232) || (c == Char.ofNat 8233) || (c == Char.ofNat 12288)

/-- Python `str.strip()` on a character list. -/
def pyStrip (s : List Char) : List Char :=
  ((s.dropWhile isPySpace).reverse.dropWhile isPySpace).reverse

/-- Python `str.lower()` (ASCII case folding; all characters occurring in
the embedded literals are ASCII or case-invariant). -/
def lowerChars (s : List Char) : List Char := s.map Char.toLower

/-- Python `pat in s` substring membership. -/
def containsSub (pat : List Char) : List Char → Bool
  | [] => pat.isEmpty
  | c :: rest => pat.isPrefixOf (c :: rest) || containsSub pat rest

/-- Python `s.split("\n", 1)[-1]`: everything after the first newline, or
the whole string when it has no newline. -/
def splitNl (s : List Char) : List Char :=
  if '\n' ∈ s then (s.dropWhile (fun c => c != '\n')).drop 1 else s

/-- Python `s.replace(pat, repl, 1)`: replace the first occurrence only. -/
def replaceFirst (pat repl : List Char) : List Char → List Char
  | [] => if pat.isPrefixOf ([] : List Char) then repl else []
  | c :: rest =>
    if pat.isPrefixOf (c :: rest) then repl ++ (c :: rest).drop pat.length
    else c :: replaceFirst pat repl rest

/-- The part of `s` strictly before the first occurrence of `pat`
(Python `s.split(pat)[0]`); all of `s` when `pat` does not occur. -/
def takeBefore (pat : List Char) : List Char → List Char
  | [] => []
  | c :: rest =>
    if pat.isPrefixOf (c :: rest) then []
    else c :: takeBefore pat rest

/-- Helper for Python `s.count(pat)` with nonempty `pat`: scan left to
right; `skip` is the number of characters still covered by the last
counted occurrence. -/
def countAux (pat : List Char) : List Char → Nat → Nat
  | [], _ => 0
  | _ :: rest, Nat.succ k => countAux pat rest k
  | c :: rest, 0 =>
    if pat.isPrefixOf (c :: rest) then countAux pat rest (pat.length - 1) + 1
    else countAux pat rest 0

/-- Python `s.count(pat)`: non-overlapping occurrences, scanning left to
right (`s.count("")` is `len(s) + 1`). -/
def countSub (pat s : List Char) : Nat :=
  if pat = [] then s.length + 1 else countAux pat s 0

/-! ### Data model (`ProspectMessageState`, src/app.py lines 7-17) -/

/-- The mutable record threaded through the pipeline, from the
`ProspectMessageState` TypedDict. -/
structure ProspectMessageState where
  prospect_name : Option String
  designation : Option String
  company : Option String
  industry : Option String
  prospect_background : String
  my_background : String
  web_summary : Option String
  event_name : Option String
  event_details : Option String
  final_message : Option String

/-! ### Completion client (`groq_llm`, src/app.py lines 23-30)

A completion call either returns the provider text or raises; the outcome
of one call is an `Except Unit String`.  `groq_llm` strips the returned
content (`response.choices[0].message.content.strip()`). -/

/-- Outcome of `groq_llm` given the outcome of the underlying provider
call: the provider content is stripped; a raised error propagates. -/
def groq_llm (outcome : Except Unit String) : Except Unit String :=
  outcome.map (fun s => String.mk (pyStrip s.data))

/-! ### Summarizer (`summarizer`, src/app.py lines 32-49) -/

/-- Text of the summarization prompt before the truncated background
(the f-string on src/app.py lines 38-44 starts with a newline). -/
def sumPromptPre : String :=
  "\nCreate 3 concise bullet points from this background text. Focus on key professional highlights and achievements:\n\n"

/-- Text of the summarization prompt after the truncated background. -/
def sumPromptPost : String := "\n\nBullet points:\n-"

/-- The prompt built by `summarizer`: it embeds `text[:4000]`. -/
def summarizerPrompt (text : String) : String :=
  sumPromptPre ++ String.mk (text.data.take 4000) ++ sumPromptPost

/-- `summarizer` (src/app.py lines 32-49).  The completion client is a
function from the prompt sent to the call outcome; the `try/except`
around the call becomes the `match` on the outcome. -/
def summarizer (client : String → Except Unit String) (text : String) : String :=
  if text = "" then "No content to summarize."
  else
    match groq_llm (client (summarizerPrompt text)) with
    | Except.ok r => String.mk (pyStrip r.data)
    | Except.error _ => "Background summary unavailable"

/-- `summarize_backgrounds` (src/app.py lines 53-59). -/
def summarize_backgrounds (client : String → Except Unit String)
    (st : ProspectMessageState) : ProspectMessageState :=
  { st with
    prospect_background := summarizer client st.prospect_background
    my_background := summarizer client st.my_background }

/-! ### Name extractor (`extract_name_from_background`, src/app.py 63-70)

The source computes `re.findall(r'\b[A-Z][a-z]+(?:\s[A-Z][a-z]+)?', bg)`
and returns the first match, or `"there"`.  The regex is embedded as a
left-to-right scan: at a position with a word boundary, the match is an
uppercase letter, a maximal nonempty run of lowercase letters, and
optionally one whitespace character followed by an uppercase letter and a
maximal nonempty run of lowercase letters. -/

def isUpperAZ (c : Char) : Bool := ('A' ≤ c) && (c ≤ 'Z')

def isLowerAZ (c : Char) : Bool := ('a' ≤ c) && (c ≤ 'z')

def isDigit09 (c : Char) : Bool := ('0' ≤ c) && (c ≤ '9')

/-- Regex word character `\w` (ASCII part). -/
def isWordChar (c : Char) : Bool :=
  isUpperAZ c || isLowerAZ c || isDigit09 c || (c == '_')

/-- Attempt to match the name regex at the start of `s`; `prev` is the
character just before this position (`none` at the start of the string),
used for the `\b` word boundary. -/
def matchAt (prev : Option Char) (s : List Char) : Option (List Char) :=
  match s with
  | [] => none
  | c :: rest =>
    if (match prev with
        | none => true
        | some p => !(isWordChar p)) && isUpperAZ c then
      let low := rest.takeWhile isLowerAZ
      if low.isEmpty then none
      else
        let base := c :: low
        match rest.dropWhile isLowerAZ with
        | d :: e :: rest4 =>
          if isPySpace d && isUpperAZ e then
            let low2 := rest4.takeWhile isLowerAZ
            if low2.isEmpty then some base
            else some (base ++ d :: e :: low2)
          else some base
        | _ => some base
    else none

/-- Left-to-right scan for the first regex match. -/
def findFirstName (prev : Option Char) : List Char → Option (List Char)
  | [] => none
  | c :: rest =>
    match matchAt prev (c :: rest) with
    | some m => some m
    | none => findFirstName (some c) rest

/-- `extract_name_from_background` (src/app.py lines 63-70). -/
def extract_name_from_background (background : String) : String :=
  if background = "" then "there"
  else
    match findFirstName none background.data with
    | some m => String.mk m
    | none => "there"

/-! ### Message composer (`generate_message`, src/app.py lines 71-153)

The post-processing of the raw completion (lines 117-148) is split into
its five sequential edits.  Step (a) is the initial `strip`, step (b) the
preamble-phrase loop, step (c) the connection-note append, step (d) the
company check (which evaluates `state['company'].lower()` and therefore
raises on a `None` company), and step (e) the sign-off deduplication. -/

/-- The hardcoded sender name (src/app.py line 73). -/
def myName : String := "Sumana"

/-- The five preamble phrases of `unwanted_starts` (src/app.py
lines 120-126); the second phrase is spelled with a right single
quotation mark in the source. -/
def unwantedStarts : List (List Char) :=
  [ "Here is a LinkedIn connection message".data,
    "Here".data ++ rsqChar :: "s a LinkedIn message".data,
    "LinkedIn connection message:".data,
    "Message:".data,
    "Output:".data ]

/-- One iteration of the preamble loop (src/app.py lines 127-129):
`if message.lower().startswith(phrase.lower()): message =
message.split("\n", 1)[-1].strip()`. -/
def stepB1 (m p : List Char) : List Char :=
  if (lowerChars p).isPrefixOf (lowerChars m) then pyStrip (splitNl m) else m

/-- The whole preamble loop, over the five phrases in order. -/
def stepB (m : List Char) : List Char := unwantedStarts.foldl stepB1 m

/-- `message.lower().startswith(phrase.lower())` holds for some phrase of
the list. -/
def startsAny (m : List Char) : Bool :=
  unwantedStarts.any (fun p => (lowerChars p).isPrefixOf (lowerChars m))

/-- The five connection-intent phrases (src/app.py line 132). -/
def connectionPhrases : List (List Char) :=
  [ "look forward".data, "would be great".data, "hope to connect".data,
    "love to connect".data, "looking forward".data ]

/-- `any(phrase in message.lower() for phrase in connection_phrases)`. -/
def anyConn (lowered : List Char) : Bool :=
  connectionPhrases.any (fun p => containsSub p lowered)

/-- The connection note appended when no connection phrase is present
(src/app.py line 135). -/
def connNote : List Char :=
  '\n' :: ("I".data ++ apoChar ::
    "ll be there too & looking forward to catching up with you at the event.".data)

/-- Step (c) (src/app.py lines 132-135). -/
def stepC (m : List Char) : List Char :=
  if anyConn (lowerChars m) then m else m ++ connNote

/-- The greeting literal `f"Hi {prospect_first_name},"`. -/
def greet (firstName : String) : List Char :=
  "Hi ".data ++ firstName.data ++ [',']

/-- The replacement block `f"Hi {prospect_first_name},\nI see that you
will be attending  {state.get('event_name', '')}."` (src/app.py line 141;
the source has two spaces before the event name). -/
def greetRepl (firstName : String) (eventName : Option String) : List Char :=
  greet firstName ++ '\n' ::
    ("I see that you will be attending  ".data ++ (eventName.getD "").data ++ ['.'])

/-- Step (d) (src/app.py lines 137-143).  `state['company'].lower()`
raises `AttributeError` when the company field is `None`. -/
def stepD (company : Option String) (eventName : Option String)
    (firstName : String) (m : List Char) : Except Unit (List Char) :=
  match company with
  | none => Except.error ()
  | some comp =>
    if containsSub (lowerChars comp.data) (lowerChars m) then Except.ok m
    else Except.ok (replaceFirst (greet firstName) (greetRepl firstName eventName) m)

/-- The sign-off literal `f"Best, {my_name}"`. -/
def signOffChars : List Char := "Best, Sumana".data

/-- The block appended by the deduplication step,
`f"\n\nBest, {my_name}"`. -/
def signOffBlock : List Char := '\n' :: '\n' :: signOffChars

/-- Step (e) (src/app.py lines 146-148). -/
def stepE (m : List Char) : List Char :=
  if countSub signOffChars m > 1 then
    pyStrip (takeBefore signOffChars m) ++ signOffBlock
  else m

/-- Steps (a) through (d) of the post-processing, applied to the text
returned by `groq_llm`. -/
def postUpToD (company eventName : Option String) (firstName : String)
    (resp : String) : Except Unit (List Char) :=
  stepD company eventName firstName (stepC (stepB (pyStrip resp.data)))

/-- The full deterministic post-processing (steps (a)-(e),
src/app.py lines 118-148). -/
def postProcess (company eventName : Option String) (firstName : String)
    (resp : String) : Except Unit (List Char) :=
  (postUpToD company eventName firstName resp).map stepE

/-- `generate_message` (src/app.py lines 71-153).  `outcome` is the
result of the single completion call made inside the `try` block; any
error there or in step (d) is caught by the broad `except` and turned
into the sentinel. -/
def generate_message (outcome : Except Unit String)
    (st : ProspectMessageState) : ProspectMessageState :=
  let firstName := extract_name_from_background st.prospect_background
  match groq_llm outcome with
  | Except.error _ => { st with final_message := some "Failed to generate message" }
  | Except.ok r =>
    match postProcess st.company st.event_name firstName r with
    | Except.ok m => { st with final_message := some (String.mk m) }
    | Except.error _ => { st with final_message := some "Failed to generate message" }

/-! ### Pipeline orchestrator (src/app.py lines 157-164)

The compiled LangGraph graph runs `summarize_backgrounds` and then
`generate_message`.  `client` is the completion client used for the two
summarization calls; `genOutcome` is the outcome of the generation call. -/

/-- The end-to-end pipeline over one record. -/
def run_pipeline (client : String → Except Unit String)
    (genOutcome : Except Unit String) (st : ProspectMessageState) :
    ProspectMessageState :=
  generate_message genOutcome (summarize_backgrounds client st)

/-- A completion client that raises on every call. -/
def failClient : String → Except Unit String := fun _ => Except.error ()

/-! ### Helper lemmas about the string primitives -/

instance exceptUnitListCharDecEq : DecidableEq (Except Unit (List Char)) := fun a b =>
  match a, b with
  | Except.error (), Except.error () => isTrue rfl
  | Except.ok x, Except.ok y =>
    if h : x = y then isTrue (h ▸ rfl) else isFalse (fun hc => h (Except.ok.inj hc))
  | Except.error (), Except.ok _ => isFalse (fun hc => Except.noConfusion hc)
  | Except.ok _, Except.error () => isFalse (fun hc => Except.noConfusion hc)

theorem sub_of_pfx {l₁ l₂ : List Char} (h : l₁ <+: l₂) : l₁ <:+: l₂ :=
  List.IsPrefix.isInfix h

theorem sub_of_sfx {l₁ l₂ : List Char} (h : l₁ <:+ l₂) : l₁ <:+: l₂ :=
  List.IsSuffix.isInfix h

/-- `containsSub` computes substring containment. -/
theorem containsSub_iff (pat : List Char) :
    ∀ s : List Char, containsSub pat s = true ↔ pat <:+: s
  | [] => by simp [containsSub, List.isEmpty_iff]
  | c :: rest => by
    simp [containsSub, List.isPrefixOf_iff_prefix, containsSub_iff pat rest,
      List.infix_cons_iff]

/-- Stripping yields a contiguous substring. -/
theorem pyStrip_sub (s : List Char) : pyStrip s <:+: s := by
  have h2 : (s.dropWhile isPySpace).reverse.dropWhile isPySpace <:+
      (s.dropWhile isPySpace).reverse := List.dropWhile_suffix _
  have h3 := List.reverse_prefix.mpr h2
  rw [List.reverse_reverse] at h3
  exact List.IsInfix.trans (sub_of_pfx h3) (sub_of_sfx (List.dropWhile_suffix _))

theorem splitNl_sfx (s : List Char) : splitNl s <:+ s := by
  unfold splitNl
  by_cases h : '\n' ∈ s
  · rw [if_pos h]
    exact List.IsSuffix.trans (List.drop_suffix _ _) (List.dropWhile_suffix _)
  · rw [if_neg h]

theorem stepB1_sub (m p : List Char) : stepB1 m p <:+: m := by
  unfold stepB1
  split
  · exact List.IsInfix.trans (pyStrip_sub _) (sub_of_sfx (splitNl_sfx m))
  · exact List.infix_rfl

theorem foldB_sub : ∀ (ps : List (List Char)) (m : List Char),
    ps.foldl stepB1 m <:+: m
  | [], _ => List.infix_rfl
  | p :: ps, m => List.IsInfix.trans (foldB_sub ps (stepB1 m p)) (stepB1_sub m p)

/-- The preamble loop leaves a message alone when no phrase matches it. -/
theorem foldB_id : ∀ (ps : List (List Char)) (m : List Char),
    (∀ p ∈ ps, (lowerChars p).isPrefixOf (lowerChars m) = false) →
    ps.foldl stepB1 m = m
  | [], _, _ => rfl
  | p :: ps, m, h => by
    have hb : stepB1 m p = m := by
      unfold stepB1
      rw [h p (List.mem_cons_self p ps)]
      simp
    show ps.foldl stepB1 (stepB1 m p) = m
    rw [hb]
    exact foldB_id ps m (fun q hq => h q (List.mem_cons_of_mem p hq))

/-- The preamble loop leaves a stripped single-line message alone. -/
theorem foldB_keep : ∀ (ps : List (List Char)) (m : List Char),
    pyStrip m = m → '\n' ∉ m → ps.foldl stepB1 m = m
  | [], _, _, _ => rfl
  | p :: ps, m, h1, h2 => by
    have hb : stepB1 m p = m := by
      unfold stepB1 splitNl
      rw [if_neg h2]
      split
      · exact h1
      · rfl
    show ps.foldl stepB1 (stepB1 m p) = m
    rw [hb]
    exact foldB_keep ps m h1 h2

/-- The text kept by the spec reading of step (b): everything after the
first newline of the message. -/
def discardFirstLine (s : List Char) : List Char :=
  (s.dropWhile (fun c => c != '\n')).drop 1

/-- When some preamble phrase matches and the message has a newline, the
preamble loop only ever keeps (a further-processed substring of) the text
after the first newline. -/
theorem foldB_discard : ∀ (ps : List (List Char)) (m : List Char),
    (∃ p ∈ ps, (lowerChars p).isPrefixOf (lowerChars m) = true) → '\n' ∈ m →
    ps.foldl stepB1 m <:+: discardFirstLine m
  | [], _, h, _ => by simp at h
  | p :: ps, m, h, hnl => by
    by_cases hp : (lowerChars p).isPrefixOf (lowerChars m) = true
    · have hb : stepB1 m p = pyStrip (discardFirstLine m) := by
        unfold stepB1
        rw [if_pos hp]
        unfold splitNl
        rw [if_pos hnl]
        rfl
      show ps.foldl stepB1 (stepB1 m p) <:+: discardFirstLine m
      rw [hb]
      exact List.IsInfix.trans (foldB_sub ps _) (pyStrip_sub _)
    · have hb : stepB1 m p = m := by
        unfold stepB1
        rw [if_neg hp]
      obtain ⟨q, hq, hqq⟩ := h
      have hq' : q ∈ ps := by
        rcases List.mem_cons.mp hq with h1 | h1
        · exact absurd (h1 ▸ hqq) hp
        · exact h1
      show ps.foldl stepB1 (stepB1 m p) <:+: discardFirstLine m
      rw [hb]
      exact foldB_discard ps m ⟨q, hq', hqq⟩ hnl

/-- `replaceFirst` either changes nothing or splices `repl` in place of
one occurrence of `pat`. -/
theorem replaceFirst_cases (pat repl : List Char) : ∀ s : List Char,
    replaceFirst pat repl s = s ∨
    ∃ a b, s = a ++ pat ++ b ∧ replaceFirst pat repl s = a ++ repl ++ b
  | [] => by
    unfold replaceFirst
    by_cases h : pat.isPrefixOf ([] : List Char) = true
    · right
      have hpe : pat = [] := by
        have := List.isPrefixOf_iff_prefix.mp h
        simpa using this
      refine ⟨[], [], by simp [hpe], ?_⟩
      rw [if_pos h]
      simp
    · left
      rw [if_neg h]
  | c :: rest => by
    unfold replaceFirst
    by_cases h : pat.isPrefixOf (c :: rest) = true
    · right
      obtain ⟨t, ht⟩ := List.isPrefixOf_iff_prefix.mp h
      refine ⟨[], (c :: rest).drop pat.length, ?_, ?_⟩
      · simp only [List.nil_append]
        rw [← ht, List.drop_left]
      · rw [if_pos h]
        simp
    · rcases replaceFirst_cases pat repl rest with h1 | ⟨a, b, hab, hr⟩
      · left
        rw [if_neg h, h1]
      · right
        refine ⟨c :: a, b, by simp [hab], ?_⟩
        rw [if_neg h, hr]
        simp

/-- A suffix that does not contain a comma survives the replacement of a
pattern ending in a comma: it is still a substring of the result. -/
theorem suffix_survives (pat repl s t : List Char)
    (ht : t <:+ s) (hlast : pat.getLast? = some ',') (hnc : ',' ∉ t) :
    t <:+: replaceFirst pat repl s := by
  rcases replaceFirst_cases pat repl s with h1 | ⟨a, b, hab, hr⟩
  · rw [h1]
    exact sub_of_sfx ht
  · rw [hr]
    have hkeep : ∀ t', t' <:+ b → t' <:+: a ++ repl ++ b := by
      intro t' h'
      refine sub_of_sfx (List.IsSuffix.trans h' ?_)
      rw [List.append_assoc]
      exact List.IsSuffix.trans (List.suffix_append repl b)
        (List.suffix_append a (repl ++ b))
    have hbs : b <:+ s := by
      rw [hab, List.append_assoc]
      exact List.IsSuffix.trans (List.suffix_append pat b)
        (List.suffix_append a (pat ++ b))
    rcases List.suffix_or_suffix_of_suffix ht hbs with h2 | h2
    · exact hkeep t h2
    · obtain ⟨w, hw⟩ := h2
      rcases eq_or_ne w [] with hwe | hwe
      · rw [hwe, List.nil_append] at hw
        rw [← hw]
        exact hkeep b List.suffix_rfl
      · exfalso
        have hts : w ++ b <:+ (a ++ pat) ++ b := by
          rw [hw, ← hab]
          exact ht
        have h3 : w <:+ a ++ pat := by
          obtain ⟨u, hu⟩ := hts
          have hu2 : (u ++ w) ++ b = (a ++ pat) ++ b := by
            rw [← hu, List.append_assoc]
          exact ⟨u, List.append_cancel_right hu2⟩
        obtain ⟨u2, hu2⟩ := h3
        have hwne : w.getLast?.isSome := List.getLast?_isSome.mpr hwe
        have hx : (a ++ pat).getLast? = some ',' := by
          rw [List.getLast?_append, hlast]
          rfl
        rw [← hu2, List.getLast?_append] at hx
        obtain ⟨x, hx2⟩ := Option.isSome_iff_exists.mp hwne
        rw [hx2, Option.or_some] at hx
        have hwlast : w.getLast? = some ',' := by
          rw [hx2]
          exact hx
        have hmem : ',' ∈ w := List.mem_of_getLast?_eq_some hwlast
        exact hnc (by rw [← hw]; exact List.mem_append_left b hmem)

theorem takeBefore_pfx (pat : List Char) : ∀ s : List Char, takeBefore pat s <+: s
  | [] => List.nil_prefix
  | c :: rest => by
    unfold takeBefore
    split
    · exact List.nil_prefix
    · exact (List.cons_prefix_cons).mpr ⟨rfl, takeBefore_pfx pat rest⟩

/-- The text before the first occurrence of a nonempty pattern contains
no occurrence of the pattern. -/
theorem takeBefore_not_in (pat : List Char) (hne : pat ≠ []) :
    ∀ s : List Char, ¬ pat <:+: takeBefore pat s
  | [] => by
    rw [show takeBefore pat [] = [] from rfl]
    simp [hne]
  | c :: rest => by
    by_cases hp : pat.isPrefixOf (c :: rest) = true
    · rw [show takeBefore pat (c :: rest) = [] from by unfold takeBefore; rw [if_pos hp]]
      simp [hne]
    · have heq : takeBefore pat (c :: rest) =
          if pat.isPrefixOf (c :: rest) = true then [] else c :: takeBefore pat rest := rfl
      rw [heq, if_neg hp]
      intro hcontra
      rcases List.infix_cons_iff.mp hcontra with h1 | h1
      · exact hp (List.isPrefixOf_iff_prefix.mpr
          (h1.trans ((List.cons_prefix_cons).mpr ⟨rfl, takeBefore_pfx pat rest⟩)))
      · exact takeBefore_not_in pat hne rest h1

/-- The scan of `countAux` passes over a block in which no occurrence of
the pattern can start. -/
theorem countAux_append (pat t : List Char) : ∀ x : List Char,
    (∀ s, s <:+ x → s ≠ [] → pat.isPrefixOf (s ++ t) = false) →
    countAux pat (x ++ t) 0 = countAux pat t 0
  | [], _ => rfl
  | c :: x', H => by
    have h1 : pat.isPrefixOf (c :: (x' ++ t)) = false :=
      H (c :: x') List.suffix_rfl (by simp)
    have hstep : countAux pat ((c :: x') ++ t) 0 = countAux pat (x' ++ t) 0 := by
      show countAux pat (c :: (x' ++ t)) 0 = countAux pat (x' ++ t) 0
      simp [countAux, h1]
    rw [hstep]
    exact countAux_append pat t x'
      (fun s hs hn => H s (List.IsSuffix.trans hs (List.suffix_cons c x')) hn)

/-- No occurrence of `pat` can start inside `x` or across the boundary
into a block starting with a newline, when `pat` does not occur in `x`
and contains no newline. -/
theorem no_match_forward (pat x u : List Char)
    (hnsub : ¬ pat <:+: x) (hnl : '\n' ∉ pat) :
    ∀ s, s <:+ x → s ≠ [] → pat.isPrefixOf (s ++ '\n' :: u) = false := by
  intro s hs hsn
  cases h : pat.isPrefixOf (s ++ '\n' :: u) with
  | false => rfl
  | true =>
    exfalso
    have hp : pat <+: s ++ '\n' :: u := List.isPrefixOf_iff_prefix.mp h
    rcases le_or_lt pat.length s.length with hlen | hlen
    · have hps : pat <+: s :=
        List.prefix_of_prefix_length_le hp (List.prefix_append s ('\n' :: u)) hlen
      exact hnsub (List.IsInfix.trans (sub_of_pfx hps) (sub_of_sfx hs))
    · have hsp : s <+: pat :=
        List.prefix_of_prefix_length_le (List.prefix_append s ('\n' :: u)) hp
          (Nat.le_of_lt hlen)
      obtain ⟨r, hr⟩ := hsp
      cases r with
      | nil =>
        rw [List.append_nil] at hr
        rw [hr] at hlen
        exact Nat.lt_irrefl _ hlen
      | cons d r' =>
        have hrp : d :: r' <+: '\n' :: u := by
          have hss : s ++ d :: r' <+: s ++ '\n' :: u := by
            rw [hr]
            exact hp
          exact (List.prefix_append_right_inj s).mp hss
        have hd : d = '\n' := ((List.cons_prefix_cons).mp hrp).1
        subst hd
        exact hnl (by rw [← hr]; exact List.mem_append_right s (List.mem_cons_self _ _))

/-- The deduplication step, when it fires, produces a message with
exactly one sign-off occurrence, at the very end. -/
theorem stepE_dedup (m : List Char) (hc : countSub signOffChars m > 1) :
    stepE m = pyStrip (takeBefore signOffChars m) ++ signOffBlock ∧
    countSub signOffChars (stepE m) = 1 ∧
    signOffChars <:+ stepE m := by
  have he : stepE m = pyStrip (takeBefore signOffChars m) ++ signOffBlock := by
    unfold stepE
    rw [if_pos hc]
  have hnsub : ¬ signOffChars <:+: pyStrip (takeBefore signOffChars m) := by
    intro hcon
    exact takeBefore_not_in signOffChars (by decide) m
      (List.IsInfix.trans hcon (pyStrip_sub _))
  have hcount :
      countSub signOffChars (pyStrip (takeBefore signOffChars m) ++ signOffBlock) = 1 := by
    unfold countSub
    rw [if_neg (by decide : ¬ signOffChars = [])]
    rw [show signOffBlock = '\n' :: '\n' :: signOffChars from rfl]
    rw [countAux_append signOffChars ('\n' :: '\n' :: signOffChars) _
      (no_match_forward signOffChars _ ('\n' :: signOffChars) hnsub (by decide))]
    decide
  refine ⟨he, ?_, ?_⟩
  · rw [he]
    exact hcount
  · rw [he]
    have h1 : signOffChars <:+ signOffBlock := ⟨['\n', '\n'], rfl⟩
    exact List.IsSuffix.trans h1 (List.suffix_append _ signOffBlock)

/-- The regex scan finds no match in text with no uppercase ASCII letter. -/
theorem findFirstName_none (prev : Option Char) : ∀ s : List Char,
    (∀ c ∈ s, isUpperAZ c = false) → findFirstName prev s = none
  | [], _ => rfl
  | c :: rest, h => by
    have hm : matchAt prev (c :: rest) = none := by
      simp [matchAt, h c (List.mem_cons_self c rest)]
    have heq : findFirstName prev (c :: rest) =
        match matchAt prev (c :: rest) with
        | some m => some m
        | none => findFirstName (some c) rest := rfl
    rw [heq, hm]
    exact findFirstName_none (some c) rest (fun d hd => h d (List.mem_cons_of_mem c hd))

/-! ### Claim theorems -/

/-- Claim C6: `extract_name_from_background` returns the first
left-to-right regex match, and the fallback literal `"there"` when no
match exists; in particular it maps the three example backgrounds of the
spec to `"Brent Parks"`, `"there"` and `"there"`.  The general fallback
conjunct covers every background with no uppercase ASCII letter, where no
match of the pattern can exist. -/
theorem claim6_extract_name :
    (∀ bg : String, (∀ c ∈ bg.data, isUpperAZ c = false) →
      extract_name_from_background bg = "there") ∧
    extract_name_from_background "Brent Parks is a director..." = "Brent Parks" ∧
    extract_name_from_background "" = "there" ∧
    extract_name_from_background "no capitals here" = "there" := by
  refine ⟨?_, by decide, by decide, by decide⟩
  intro bg h
  unfold extract_name_from_background
  by_cases hbg : bg = ""
  · rw [if_pos hbg]
  · rw [if_neg hbg, findFirstName_none none bg.data h]

/-- Witness for C6: the theorem applied at the concrete background
`"xyz"`. -/
theorem claim6_witness : extract_name_from_background "xyz" = "there" :=
  claim6_extract_name.1 "xyz" (by decide)

/-- Claim C7: for input longer than 4000 characters, the summarizer
builds a prompt embedding exactly the 4000-character prefix, so both the
prompt and the whole summarizer result coincide with those of the
truncated input, for every client. -/
theorem claim7_truncation (client : String → Except Unit String) (text : String)
    (h : 4000 < text.length) :
    summarizerPrompt text =
      sumPromptPre ++ String.mk (text.data.take 4000) ++ sumPromptPost ∧
    summarizerPrompt text = summarizerPrompt (String.mk (text.data.take 4000)) ∧
    summarizer client text = summarizer client (String.mk (text.data.take 4000)) := by
  have hdata : (String.mk (text.data.take 4000)).data = text.data.take 4000 := rfl
  have hpr : summarizerPrompt (String.mk (text.data.take 4000)) = summarizerPrompt text := by
    unfold summarizerPrompt
    rw [hdata, List.take_take]
    simp
  refine ⟨rfl, hpr.symm, ?_⟩
  have h1 : ¬ text = "" := by
    intro he
    subst he
    exact absurd h (by decide)
  have h2 : ¬ String.mk (text.data.take 4000) = "" := by
    intro he
    have hdd : text.data.take 4000 = ([] : List Char) := by
      have := congrArg String.data he
      rw [hdata] at this
      exact this
    have hlen := congrArg List.length hdd
    rw [List.length_take] at hlen
    have hL : 4000 < text.data.length := h
    simp at hlen
    omega
  unfold summarizer
  rw [hpr, if_neg h1, if_neg h2]

/-- A 4001-character input for the C7 witness. -/
def longText : String := String.mk (List.replicate 4001 'a')

/-- Witness for C7: the theorem applied at a concrete 4001-character
input and the always-failing client. -/
theorem claim7_witness :
    summarizer failClient longText =
      summarizer failClient (String.mk (longText.data.take 4000)) :=
  (claim7_truncation failClient longText
    (by show 4000 < (List.replicate 4001 'a').length
        rw [List.length_replicate]
        omega)).2.2

/-- Claim C8: on an empty background the summarizer returns its fixed
literal, for every client — in particular the client is never consulted
(the result does not depend on it). -/
theorem claim8_empty_input (client : String → Except Unit String) :
    summarizer client "" = "No content to summarize." := by
  unfold summarizer
  rw [if_pos rfl]

/-- Claim C9: when the completion client raises on every call, both
background fields end up holding the summarizer fallback literal and the
final message holds the composer sentinel; the pipeline is a total
function, so no exception escapes. -/
theorem claim9_all_calls_fail (st : ProspectMessageState)
    (h1 : st.prospect_background ≠ "") (h2 : st.my_background ≠ "") :
    (run_pipeline failClient (Except.error ()) st).prospect_background =
      "Background summary unavailable" ∧
    (run_pipeline failClient (Except.error ()) st).my_background =
      "Background summary unavailable" ∧
    (run_pipeline failClient (Except.error ()) st).final_message =
      some "Failed to generate message" := by
  have hs : ∀ t : String, t ≠ "" →
      summarizer failClient t = "Background summary unavailable" := by
    intro t ht
    unfold summarizer
    rw [if_neg ht]
    rfl
  have hg : ∀ s : ProspectMessageState,
      generate_message (Except.error ()) s =
        { s with final_message := some "Failed to generate message" } :=
    fun _ => rfl
  rw [show run_pipeline failClient (Except.error ()) st =
    generate_message (Except.error ()) (summarize_backgrounds failClient st) from rfl]
  rw [hg]
  refine ⟨?_, ?_, rfl⟩
  · show (summarize_backgrounds failClient st).prospect_background = _
    exact hs st.prospect_background h1
  · show (summarize_backgrounds failClient st).my_background = _
    exact hs st.my_background h2

/-- A concrete fully-populated request for the C9 witness. -/
def stFail : ProspectMessageState :=
  { prospect_name := some "Jane Smith", designation := some "VP Engineering",
    company := some "Acme Corp", industry := none,
    prospect_background := "Jane Smith leads data platform teams",
    my_background := "I build data pipelines", web_summary := none,
    event_name := some "Ai4 Vegas 2025", event_details := none,
    final_message := none }

/-- Witness for C9: the theorem applied at the concrete request. -/
theorem claim9_witness :
    (run_pipeline failClient (Except.error ()) stFail).prospect_background =
      "Background summary unavailable" ∧
    (run_pipeline failClient (Except.error ()) stFail).my_background =
      "Background summary unavailable" ∧
    (run_pipeline failClient (Except.error ()) stFail).final_message =
      some "Failed to generate message" :=
  claim9_all_calls_fail stFail (by decide) (by decide)

/-- Claim C10: with a `None` company the company-mention check evaluates
`None.lower()` and raises, so the broad handler yields the sentinel even
though the completion call succeeded. -/
theorem claim10_none_company (st : ProspectMessageState) (raw : String)
    (h : st.company = none) :
    (generate_message (Except.ok raw) st).final_message =
      some "Failed to generate message" := by
  have hpp : ∀ ev fn resp, postProcess none ev fn resp = Except.error () :=
    fun _ _ _ => rfl
  show (match postProcess st.company st.event_name
      (extract_name_from_background st.prospect_background)
      (String.mk (pyStrip raw.data)) with
    | Except.ok m => { st with final_message := some (String.mk m) }
    | Except.error _ =>
        { st with final_message := some "Failed to generate message" }).final_message = _
  rw [h, hpp]

/-- A concrete request with a `None` company for the C10 witness. -/
def stNoCompany : ProspectMessageState := { stFail with company := none }

/-- Witness for C10: the theorem applied at the concrete request and a
successful completion. -/
theorem claim10_witness :
    (generate_message (Except.ok "Hi there!") stNoCompany).final_message =
      some "Failed to generate message" :=
  claim10_none_company stNoCompany "Hi there!" rfl

/-! ### Claims about the post-processing repairs -/

/-- A concrete request used for the C1 failing input. -/
def stC1 : ProspectMessageState :=
  { prospect_name := some "Jane Smith", designation := some "VP Engineering",
    company := some "Acme Corp", industry := none,
    prospect_background := "Jane Smith leads data platform teams",
    my_background := "I build data pipelines", web_summary := none,
    event_name := some "Ai4 Vegas 2025", event_details := none,
    final_message := none }

/-- A raw completion that never mentions the company `"Acme Corp"`. -/
def rawC1 : String :=
  "Hi Jane Smith,\nYour work on data platforms caught my attention. I look forward to connecting at the event.\nBest, Sumana"

/-- Claim C1 (code evaluation at the failing input): the completion omits
the company, the run succeeds (no sentinel), the step-4d repair fires —
yet the repaired output still does not contain the company name, because
the injected line mentions the event, not the company. -/
theorem claim1_company_still_missing :
    containsSub (lowerChars "Acme Corp".data) (lowerChars rawC1.data) = false ∧
    containsSub (lowerChars "Acme Corp".data)
      (lowerChars (((generate_message (Except.ok rawC1) stC1).final_message).getD "").data)
      = false ∧
    (generate_message (Except.ok rawC1) stC1).final_message ≠
      some "Failed to generate message" ∧
    (generate_message (Except.ok rawC1) stC1).final_message ≠ none := by
  decide

/-- A single-line message starting with a preamble phrase. -/
def cexC2 : List Char := "Message: nice to meet you".data

/-- Claim C2 counterexample: this stripped completion begins with the
preamble phrase `"Message:"`, yet step (b) keeps it whole instead of
discarding its (only) line and keeping the empty remainder. -/
theorem claim2_counterexample :
    startsAny cexC2 = true ∧ stepB cexC2 = cexC2 ∧
    stepB cexC2 ≠ discardFirstLine cexC2 := by
  decide

/-- Claim C2 (amended): when a preamble phrase matches and the message
contains a newline, step (b) discards the first line — what it keeps is a
contiguous substring of the text after the first newline (stripped, and
possibly with further preamble lines discarded by the same loop); a
stripped message without any newline is left unchanged by step (b). -/
theorem claim2_amended (m : List Char) :
    (startsAny m = true → '\n' ∈ m → stepB m <:+: discardFirstLine m) ∧
    (pyStrip m = m → '\n' ∉ m → stepB m = m) := by
  constructor
  · intro h1 h2
    obtain ⟨p, hp, hpp⟩ := List.any_eq_true.mp h1
    exact foldB_discard unwantedStarts m ⟨p, hp, hpp⟩ h2
  · intro h1 h2
    exact foldB_keep unwantedStarts m h1 h2

/-- A multi-line message with a preamble line, for the C2 witness. -/
def cexC2b : List Char :=
  "Output: text\nHi Jane, I look forward to it.\nBest, Sumana".data

/-- Witness for amended C2: both conjuncts applied at concrete inputs. -/
theorem claim2_amended_witness :
    (stepB cexC2b <:+: discardFirstLine cexC2b) ∧ stepB cexC2 = cexC2 :=
  ⟨(claim2_amended cexC2b).1 (by decide) (by decide),
   (claim2_amended cexC2).2 (by decide) (by decide)⟩

/-- A concrete request used for the C3 and C4 counterexamples. -/
def stC34 : ProspectMessageState :=
  { prospect_name := some "Zed", designation := none, company := some "Acme Corp",
    industry := none, prospect_background := "Zed zz",
    my_background := "bg", web_summary := none,
    event_name := some "E1", event_details := none, final_message := none }

/-- A raw completion containing the sign-off exactly twice, whose first
line is a preamble line. -/
def rawC3 : String := "Message: Best, Sumana\nBest, Sumana is my friend"

/-- The message the pipeline actually produces for `rawC3`. -/
def outC3 : String :=
  String.mk ("Best, Sumana is my friend\nI".data ++ apoChar ::
    "ll be there too & looking forward to catching up with you at the event.".data)

/-- Claim C3 counterexample: the raw completion contains `"Best, Sumana"`
twice, yet the post-processed output keeps its single occurrence at the
start, not at the end, and no sign-off is appended (the preamble step
already removed one of the two occurrences, so step (e) never fires). -/
theorem claim3_counterexample :
    countSub signOffChars rawC3.data = 2 ∧
    (generate_message (Except.ok rawC3) stC34).final_message = some outC3 ∧
    signOffChars.isSuffixOf outC3.data = false := by
  decide

/-- Claim C3 (amended): whenever the message reaching the deduplication
step — i.e. after steps (a)-(d) — still contains more than one
occurrence of `"Best, Sumana"`, the final message keeps the trimmed text
before the first occurrence, appends exactly one sign-off, and therefore
contains exactly one occurrence, at the very end. -/
theorem claim3_amended (comp ev fn resp : String) (m4 : List Char)
    (hd : postUpToD (some comp) (some ev) fn resp = Except.ok m4)
    (hc : countSub signOffChars m4 > 1) :
    postProcess (some comp) (some ev) fn resp = Except.ok (stepE m4) ∧
    stepE m4 = pyStrip (takeBefore signOffChars m4) ++ signOffBlock ∧
    countSub signOffChars (stepE m4) = 1 ∧
    signOffChars <:+ stepE m4 := by
  obtain ⟨he, hcount, hsfx⟩ := stepE_dedup m4 hc
  refine ⟨?_, he, hcount, hsfx⟩
  unfold postProcess
  rw [hd]
  rfl

/-- A raw completion with two sign-offs that survive steps (a)-(d). -/
def respC3w : String := "Hi,\nBest, Sumana\nBest, Sumana"

/-- The message reaching step (e) for `respC3w`. -/
def m4C3w : List Char := respC3w.data ++ connNote

/-- Witness for amended C3: the theorem applied at a concrete run. -/
theorem claim3_amended_witness :
    postProcess (some "Acme") (some "E1") "Zed" respC3w = Except.ok (stepE m4C3w) ∧
    stepE m4C3w = pyStrip (takeBefore signOffChars m4C3w) ++ signOffBlock ∧
    countSub signOffChars (stepE m4C3w) = 1 ∧
    signOffChars <:+ stepE m4C3w :=
  claim3_amended "Acme" "E1" "Zed" respC3w m4C3w (by decide) (by decide)

/-- A raw completion with no connection phrase and two sign-offs. -/
def rawC4 : String := "Best, Sumana xx Best, Sumana"

/-- Claim C4 counterexample: the raw completion contains no
connection-intent phrase; step (c) does append the fixed sentence, but
the deduplication step (e) then truncates everything before the first
sign-off — including the appended sentence — so the final output contains
no connection-intent phrase at all. -/
theorem claim4_counterexample :
    anyConn (lowerChars rawC4.data) = false ∧
    (generate_message (Except.ok rawC4) stC34).final_message =
      some "\n\nBest, Sumana" ∧
    anyConn (lowerChars ("\n\nBest, Sumana" : String).data) = false := by
  decide

/-- Phrase absence is inherited by substrings. -/
theorem anyConn_mono {u v : List Char} (h : u <:+: v)
    (hfalse : anyConn (lowerChars v) = false) : anyConn (lowerChars u) = false := by
  cases hcase : anyConn (lowerChars u) with
  | false => rfl
  | true =>
    exfalso
    obtain ⟨p, hp, hpp⟩ := List.any_eq_true.mp hcase
    have hsub : p <:+: lowerChars v :=
      List.IsInfix.trans ((containsSub_iff p _).mp hpp) (List.IsInfix.map _ h)
    have htrue : anyConn (lowerChars v) = true :=
      List.any_eq_true.mpr ⟨p, hp, (containsSub_iff p _).mpr hsub⟩
    rw [htrue] at hfalse
    exact Bool.noConfusion hfalse

/-- The appended connection note as a substring forces a connection
phrase in the lowered message. -/
theorem anyConn_of_note {m : List Char} (hsub : connNote <:+: m) :
    anyConn (lowerChars m) = true := by
  apply List.any_eq_true.mpr
  refine ⟨"looking forward".data, by decide, ?_⟩
  apply (containsSub_iff _ _).mpr
  exact List.IsInfix.trans ((containsSub_iff _ _).mp (by decide))
    (List.IsInfix.map _ hsub)

set_option maxHeartbeats 1600000 in
/-- Claim C4 (amended): for a raw completion with no connection-intent
phrase, step (c) appends the fixed sentence, and the appended sentence
survives the company repair of step (d); so the final message contains a
connection phrase provided the sign-off count reaching step (e) is at
most one (the counterexample shows step (e) can otherwise cut it off). -/
theorem claim4_amended (comp ev fn resp : String) (m4 : List Char)
    (hres : anyConn (lowerChars resp.data) = false)
    (hd : postUpToD (some comp) (some ev) fn resp = Except.ok m4)
    (hc : countSub signOffChars m4 ≤ 1) :
    postProcess (some comp) (some ev) fn resp = Except.ok m4 ∧
    anyConn (lowerChars m4) = true := by
  have hd0 := hd
  have hm2sub : stepB (pyStrip resp.data) <:+: resp.data :=
    List.IsInfix.trans (foldB_sub unwantedStarts _) (pyStrip_sub _)
  have hm2conn : anyConn (lowerChars (stepB (pyStrip resp.data))) = false :=
    anyConn_mono hm2sub hres
  have hm3 : stepC (stepB (pyStrip resp.data)) =
      stepB (pyStrip resp.data) ++ connNote := by
    unfold stepC
    rw [hm2conn]
    simp
  have hnote3 : connNote <:+ stepC (stepB (pyStrip resp.data)) := by
    rw [hm3]
    exact List.suffix_append _ _
  have hlast : (greet fn).getLast? = some ',' := by
    unfold greet
    rw [List.getLast?_append]
    rfl
  have hnc : ',' ∉ connNote := by decide
  have hnote4 : connNote <:+: m4 := by
    rw [show postUpToD (some comp) (some ev) fn resp =
      (if containsSub (lowerChars comp.data)
          (lowerChars (stepC (stepB (pyStrip resp.data)))) = true then
        Except.ok (stepC (stepB (pyStrip resp.data)))
      else Except.ok (replaceFirst (greet fn) (greetRepl fn (some ev))
        (stepC (stepB (pyStrip resp.data))))) from rfl] at hd
    split at hd
    · injection hd with hd
      rw [← hd]
      exact sub_of_sfx hnote3
    · injection hd with hd
      rw [← hd]
      exact suffix_survives _ _ _ _ hnote3 hlast hnc
  have hE : stepE m4 = m4 := by
    unfold stepE
    rw [if_neg (by omega : ¬ countSub signOffChars m4 > 1)]
  constructor
  · unfold postProcess
    rw [hd0]
    rw [show Except.map stepE (Except.ok m4) = Except.ok (stepE m4) from rfl, hE]
  · exact anyConn_of_note hnote4

/-- A raw completion with no connection phrase and one sign-off. -/
def respC4w : String := "Nice work. Best, Sumana"

/-- The message reaching step (e) for `respC4w`. -/
def m4C4w : List Char := respC4w.data ++ connNote

/-- Witness for amended C4: the theorem applied at a concrete run. -/
theorem claim4_amended_witness :
    postProcess (some "Acme") (some "E1") "Zed" respC4w = Except.ok m4C4w ∧
    anyConn (lowerChars m4C4w) = true :=
  claim4_amended "Acme" "E1" "Zed" respC4w m4C4w (by decide) (by decide) (by decide)

/-- Claim C5: the deterministic repair is the identity on a compliant
message — already stripped, beginning with no preamble phrase, mentioning
the company (case-insensitively), containing a connection phrase, and
containing the sign-off at most once. -/
theorem claim5_idempotent (m : List Char) (comp : String) (ev : Option String)
    (fn : String)
    (h1 : pyStrip m = m) (h2 : startsAny m = false)
    (h3 : containsSub (lowerChars comp.data) (lowerChars m) = true)
    (h4 : anyConn (lowerChars m) = true)
    (h5 : countSub signOffChars m ≤ 1) :
    postProcess (some comp) ev fn (String.mk m) = Except.ok m := by
  have hb : stepB (pyStrip (String.mk m).data) = m := by
    rw [show (String.mk m).data = m from rfl, h1]
    refine foldB_id unwantedStarts m (fun p hp => ?_)
    exact Bool.eq_false_iff.mpr (List.any_eq_false.mp h2 p hp)
  have hcC : stepC m = m := by
    unfold stepC
    rw [if_pos h4]
  have hdD : stepD (some comp) ev fn m = Except.ok m := by
    rw [show stepD (some comp) ev fn m =
      (if containsSub (lowerChars comp.data) (lowerChars m) = true then Except.ok m
       else Except.ok (replaceFirst (greet fn) (greetRepl fn ev) m)) from rfl]
    rw [if_pos h3]
  have heE : stepE m = m := by
    unfold stepE
    rw [if_neg (by omega : ¬ countSub signOffChars m > 1)]
  unfold postProcess postUpToD
  rw [hb, hcC, hdD]
  rw [show Except.map stepE (Except.ok m) = Except.ok (stepE m) from rfl, heE]

/-- A compliant message for the C5 witness. -/
def compliantMsg : List Char :=
  "Hi Jane,\nYour work at Acme Corp caught my attention. I look forward to connecting.\nBest, Sumana".data

/-- Witness for C5: the theorem applied at a concrete compliant
message. -/
theorem claim5_witness :
    postProcess (some "Acme Corp") (some "Ai4 Vegas 2025") "Jane"
      (String.mk compliantMsg) = Except.ok compliantMsg :=
  claim5_idempotent compliantMsg "Acme Corp" (some "Ai4 Vegas 2025") "Jane"
    (by decide) (by decide) (by decide) (by decide) (by decide)

end EventsGovega
